import Mathlib

set_option maxHeartbeats 1000000

/-!
Verification of the file plugin and the CLI printing logic of the
Document-Generator repository.

The repository has two source files: plugins/repo_file_plugin.py, a
plugin with three file-system operations, and main.py, the CLI entry
point.  The file system is modelled as a finite tree of directories and
regular files; paths are lists of components together with an
absolute-or-relative flag, mirroring POSIX path strings.  Exceptions of
Python are modelled with an Except monad.  The external agent framework
used by main.py is not part of the repository, so the printing logic of
main is parametrised over the responses and the chat history the
framework produces.
-/

namespace DocGen

/-- A node of the modelled file system: a regular file with string
content, or a directory with a list of named entries in a fixed order
(the order os.listdir returns). -/
inductive FSNode where
  | file (content : String) : FSNode
  | dir (entries : List (String × FSNode)) : FSNode

/-- A POSIX path: an absolute-or-relative flag plus the list of
components, mirroring the string paths of os.path. -/
structure PyPath where
  absolute : Bool
  components : List String
deriving Repr, DecidableEq

/-- Render a path as the string Python would show in messages. -/
def pathStr (p : PyPath) : String :=
  (if p.absolute then "/" else "") ++ String.intercalate "/" p.components

/-- Semantics of os.path.join root p on POSIX: an absolute second
argument discards the first argument entirely. -/
def osPathJoin (root : PyPath) (p : PyPath) : PyPath :=
  if p.absolute then p
  else { absolute := root.absolute, components := root.components ++ p.components }

/-- The Python exceptions the modelled operations can raise. -/
inductive PyError where
  | fileNotFound (msg : String)
  | isADirectory (msg : String)
  | notADirectory (msg : String)
  | indexError (msg : String)
deriving Repr, DecidableEq

/-- Outcome of resolving a path in the file system, distinguishing the
errno conditions Python surfaces as distinct exception types. -/
inductive Resolved where
  | found (node : FSNode)
  | missing
  | notDir

/-- First entry with the given name, as the OS resolves one path
component inside a directory. -/
def findEntry : List (String × FSNode) → String → Option FSNode
  | [], _ => none
  | (n, node) :: rest, name => if n = name then some node else findEntry rest name

/-- Resolve a path (list of components, taken from the root of the file
system) against a node: ENOENT when a component is absent, ENOTDIR when
an intermediate component is a regular file. -/
def resolve : FSNode → List String → Resolved
  | node, [] => .found node
  | .file _, _ :: _ => .notDir
  | .dir es, c :: cs =>
    match findEntry es c with
    | some node => resolve node cs
    | none => .missing

/-- Universal newline translation performed by open in default text
mode: a carriage return, optionally followed by a line feed, reads as a
single line feed. -/
def unlChars : List Char → List Char
  | [] => []
  | [c] => if c = '\r' then ['\n'] else [c]
  | c :: c2 :: rest =>
    if c = '\r' then
      if c2 = '\n' then '\n' :: unlChars rest
      else '\n' :: unlChars (c2 :: rest)
    else c :: unlChars (c2 :: rest)

/-- Universal newline translation on strings. -/
def universalNewlines (s : String) : String := ⟨unlChars s.data⟩

/-- Semantics of open(path).read() in default text mode: the stored
content after universal newline translation; a directory raises
IsADirectoryError, an absent path FileNotFoundError, a file used as an
intermediate directory NotADirectoryError. -/
def osOpenRead (fs : FSNode) (p : List String) : Except PyError String :=
  match resolve fs p with
  | .found (.file c) => .ok (universalNewlines c)
  | .found (.dir _) => .error (.isADirectory ("Is a directory: " ++ pathStr ⟨true, p⟩))
  | .missing => .error (.fileNotFound ("No such file or directory: " ++ pathStr ⟨true, p⟩))
  | .notDir => .error (.notADirectory ("Not a directory: " ++ pathStr ⟨true, p⟩))

/-- Semantics of os.listdir(path): the entry names of a directory, in
entry order, never including the dot or dot-dot pseudo entries. -/
def osListdir (fs : FSNode) (p : List String) : Except PyError (List String) :=
  match resolve fs p with
  | .found (.dir es) => .ok (es.map Prod.fst)
  | .found (.file _) => .error (.notADirectory ("Not a directory: " ++ pathStr ⟨true, p⟩))
  | .missing => .error (.fileNotFound ("No such file or directory: " ++ pathStr ⟨true, p⟩))
  | .notDir => .error (.notADirectory ("Not a directory: " ++ pathStr ⟨true, p⟩))

/-- Whether a node is a directory. -/
def isDirNode : FSNode → Bool
  | .file _ => false
  | .dir _ => true

/-- The subdirectory names of an entry list, in entry order. -/
def dirNames (es : List (String × FSNode)) : List String :=
  (es.filter (fun e => isDirNode e.2)).map Prod.fst

/-- The regular-file names of an entry list, in entry order. -/
def fileNames (es : List (String × FSNode)) : List String :=
  (es.filter (fun e => !isDirNode e.2)).map Prod.fst

/-- One triple yielded by os.walk: dirpath, dirnames, filenames. -/
abbrev Frame := List String × List String × List String

mutual

/-- The frames os.walk yields for a node at path p, top down: the frame
of the directory itself, then the frames of each subdirectory in entry
order.  A regular file yields no frames. -/
def walkNode (p : List String) : FSNode → List Frame
  | .file _ => []
  | .dir es => (p, dirNames es, fileNames es) :: walkEntries p es

/-- The frames contributed by the subdirectories among an entry list. -/
def walkEntries (p : List String) : List (String × FSNode) → List Frame
  | [] => []
  | (name, .dir es) :: rest => walkNode (p ++ [name]) (.dir es) ++ walkEntries p rest
  | (_, .file _) :: rest => walkEntries p rest

end

/-- Semantics of os.walk(p): top-down frames, and nothing at all when p
does not name a directory. -/
def osWalk (fs : FSNode) (p : List String) : List Frame :=
  match resolve fs p with
  | .found node => walkNode p node
  | _ => []

/-- One normalisation step list of os.path.normpath on an absolute
path: empty and dot components vanish, dot-dot removes the previous
component (and is dropped at the root). -/
def normSteps (acc : List String) : List String → List String
  | [] => acc
  | c :: cs =>
    if c = "" ∨ c = "." then normSteps acc cs
    else if c = ".." then normSteps acc.dropLast cs
    else normSteps (acc ++ [c]) cs

/-- The plugin state: the single root directory path fixed at
construction. -/
structure RepoFilePlugin where
  root_dir : PyPath
deriving Repr, DecidableEq

/-- Constructor semantics: root_dir is
os.path.abspath(os.path.join(os.path.dirname(FILE), "..")), modelled
with the directory of the plugin file given as a path and the working
directory abspath would use when that path is relative. -/
def RepoFilePlugin.init (cwd : List String) (fileDir : PyPath) : RepoFilePlugin :=
  { root_dir :=
      ⟨true,
        normSteps []
          ((if fileDir.absolute then fileDir.components else cwd ++ fileDir.components)
            ++ [".."])⟩ }

/-- Result of one plugin method call: the plugin object after the call,
the lines printed to standard output, and the returned value or raised
exception. -/
structure MethodResult where
  self : RepoFilePlugin
  output : List String
  result : Except PyError String

/-- read_file_by_path: join the relative path onto the root, open and
read; a FileNotFoundError is re-raised with a repository message, every
other exception propagates unchanged. -/
def RepoFilePlugin.read_file_by_path (self : RepoFilePlugin) (fs : FSNode)
    (path : PyPath) : MethodResult :=
  let full_path := osPathJoin self.root_dir path
  match osOpenRead fs full_path.components with
  | .ok content => ⟨self, [], .ok content⟩
  | .error (.fileNotFound _) =>
      ⟨self, [], .error (.fileNotFound
        ("File " ++ pathStr full_path ++ " not found in repository."))⟩
  | .error e => ⟨self, [], .error e⟩

/-- The line read_file_by_name prints when it finds the file. -/
def foundMsg (file_name : String) (dirpath : List String) : String :=
  "Found file " ++ file_name ++ " in " ++ pathStr ⟨true, dirpath⟩ ++ "."

/-- The loop body of read_file_by_name over the walk frames: at the
first frame whose filenames contain the name, print the found line and
open that file; if no frame matches, raise FileNotFoundError. -/
def searchFrames (fs : FSNode) (file_name : String) :
    List Frame → List String × Except PyError String
  | [] => ([], .error (.fileNotFound
      ("File " ++ file_name ++ " not found in repository.")))
  | (dirpath, _, files) :: rest =>
    if file_name ∈ files then
      ([foundMsg file_name dirpath], osOpenRead fs (dirpath ++ [file_name]))
    else searchFrames fs file_name rest

/-- read_file_by_name: walk the tree under the root top down and read
the first file of the given name. -/
def RepoFilePlugin.read_file_by_name (self : RepoFilePlugin) (fs : FSNode)
    (file_name : String) : MethodResult :=
  let r := searchFrames fs file_name (osWalk fs self.root_dir.components)
  ⟨self, r.1, r.2⟩

/-- list_directory: join the relative path onto the root and list the
directory, entries joined by newlines; a FileNotFoundError is re-raised
with a repository message, every other exception propagates unchanged. -/
def RepoFilePlugin.list_directory (self : RepoFilePlugin) (fs : FSNode)
    (path : PyPath) : MethodResult :=
  let full_path := osPathJoin self.root_dir path
  match osListdir fs full_path.components with
  | .ok files => ⟨self, [], .ok (String.intercalate "\n" files)⟩
  | .error (.fileNotFound _) =>
      ⟨self, [], .error (.fileNotFound
        ("Directory " ++ pathStr full_path ++ " not found in repository."))⟩
  | .error e => ⟨self, [], .error e⟩

/-- A chat message as main.py sees it: author name and text content. -/
structure ChatMessage where
  name : String
  content : String
deriving Repr, DecidableEq

/-- The banner line main prints for each response of the group chat. -/
def respondedLine (name : String) : String :=
  "==== " ++ name ++ " just responded ===="

/-- The printing behaviour of main after the group chat ran: one banner
line per response, then the filtered history of the content creation
agent (given newest first, as the code comment states); the label line
is printed before the unguarded index-zero access, which raises
IndexError on an empty history. -/
def mainPrints (responses : List ChatMessage) (chatHistory : List ChatMessage)
    (agentName : String) : List String × Except PyError Unit :=
  let header := responses.map (fun r => respondedLine r.name)
  let content_history := chatHistory.filter (fun m => m.name == agentName)
  match content_history with
  | [] => (header ++ ["Final content:"], .error (.indexError "list index out of range"))
  | m :: _ => (header ++ ["Final content:", m.content], .ok ())

/-! Well-formedness of a file system: the entry names of every
directory are pairwise distinct, as on a real file system. -/

/-- No two entries of the list share a name. -/
def nodupKeys : List (String × FSNode) → Bool
  | [] => true
  | (n, _) :: rest => !(rest.any (fun e => e.1 == n)) && nodupKeys rest

mutual

/-- Every directory reachable from the node has pairwise distinct entry
names. -/
def nodeWF : FSNode → Bool
  | .file _ => true
  | .dir es => nodupKeys es && entsWF es

/-- Every node in the entry list is well formed. -/
def entsWF : List (String × FSNode) → Bool
  | [] => true
  | (_, n) :: rest => nodeWF n && entsWF rest

end

mutual

/-- Whether some regular file named name exists anywhere in the tree
rooted at the node (the node itself not counted). -/
def containsFileNamed : FSNode → String → Bool
  | .file _, _ => false
  | .dir es, name => entsContain es name

/-- Whether an entry list has a regular file of the name directly, or
inside one of its directories. -/
def entsContain : List (String × FSNode) → String → Bool
  | [], _ => false
  | (n, .file _) :: rest, name => n == name || entsContain rest name
  | (_, .dir es) :: rest, name => containsFileNamed (.dir es) name || entsContain rest name

end

/-- Whether some regular file named name exists strictly below the
given root path. -/
def existsFileUnder (fs : FSNode) (root : List String) (name : String) : Bool :=
  match resolve fs root with
  | .found node => containsFileNamed node name
  | _ => false

/-- Whether the path resolves to a regular file. -/
def isFileAt (fs : FSNode) (p : List String) : Bool :=
  match resolve fs p with
  | .found (.file _) => true
  | _ => false

/-! Concrete fixtures used by witnesses and counterexamples. -/

/-- A small file system: a repository directory next to a system
directory outside it; one file content contains a CRLF sequence. -/
def sampleFS : FSNode := .dir [
  ("repo", .dir [
    ("README.md", .file "hello"),
    ("sub", .dir [("notes.txt", .file "inner")]),
    ("crlf.txt", .file "a\r\nb")
  ]),
  ("etc", .dir [("passwd", .file "secret")])
]

/-- The plugin instance rooted at the repository directory. -/
def samplePlugin : RepoFilePlugin := ⟨⟨true, ["repo"]⟩⟩

/-- A file system with two files of the same name in different
directories, to observe the walk order. -/
def dupFS : FSNode := .dir [
  ("repo", .dir [
    ("a", .dir [("dup.txt", .file "first")]),
    ("b", .dir [("dup.txt", .file "second")])
  ])
]

/-- The plugin instance rooted at the duplicated-name repository. -/
def dupPlugin : RepoFilePlugin := ⟨⟨true, ["repo"]⟩⟩

example : (samplePlugin.read_file_by_path sampleFS ⟨false, ["README.md"]⟩).result
    = .ok "hello" := rfl
example : (samplePlugin.read_file_by_path sampleFS ⟨false, ["crlf.txt"]⟩).result
    = .ok "a\nb" := rfl
example : (samplePlugin.read_file_by_path sampleFS ⟨true, ["etc", "passwd"]⟩).result
    = .ok "secret" := rfl
example : (samplePlugin.read_file_by_path sampleFS ⟨false, ["sub"]⟩).result
    = .error (.isADirectory "Is a directory: /repo/sub") := rfl
example : (samplePlugin.read_file_by_name sampleFS "notes.txt").result
    = .ok "inner" := rfl
example : (samplePlugin.read_file_by_name sampleFS "notes.txt").output
    = ["Found file notes.txt in /repo/sub."] := by decide
example : (dupPlugin.read_file_by_name dupFS "dup.txt").result
    = .ok "first" := rfl
example : (samplePlugin.list_directory sampleFS ⟨false, []⟩).result
    = .ok ("README.md\nsub\ncrlf.txt") := rfl
example : (samplePlugin.read_file_by_name sampleFS "nope.txt").result
    = .error (.fileNotFound "File nope.txt not found in repository.") := rfl
example : nodeWF sampleFS = true := by decide
example : nodeWF dupFS = true := by decide
example : osWalk dupFS ["repo"] =
    [(["repo"], ["a", "b"], []),
     (["repo", "a"], [], ["dup.txt"]),
     (["repo", "b"], [], ["dup.txt"])] := by decide

/-! General lemmas about the model. -/

/-- A string without carriage returns is unchanged by universal newline
translation. -/
theorem unlChars_no_cr : ∀ (l : List Char), '\r' ∉ l → unlChars l = l
  | [], _ => rfl
  | [c], h => by
    have hc : c ≠ '\r' := by intro hh; exact h (by simp [hh])
    simp [unlChars, hc]
  | c :: c2 :: rest, h => by
    have hc : c ≠ '\r' := by intro hh; exact h (by simp [hh])
    have h2 : '\r' ∉ c2 :: rest := by
      intro hh; exact h (List.mem_cons_of_mem _ hh)
    rw [unlChars, if_neg hc, unlChars_no_cr (c2 :: rest) h2]

/-- A string without carriage returns is unchanged by the text-mode
read translation. -/
theorem universalNewlines_no_cr (s : String) (h : '\r' ∉ s.data) :
    universalNewlines s = s := by
  rw [universalNewlines, unlChars_no_cr s.data h]

/-- Path resolution of an appended path factors through the first
part. -/
theorem resolve_append (p q : List String) : ∀ (n : FSNode),
    resolve n (p ++ q) =
      match resolve n p with
      | .found m => resolve m q
      | .missing => .missing
      | .notDir => .notDir := by
  induction p with
  | nil => intro n; simp [resolve]
  | cons c cs ih =>
    intro n
    match n with
    | .file s => simp [resolve]
    | .dir es =>
      rw [List.cons_append]
      rw [show resolve (.dir es) (c :: (cs ++ q)) =
          (match findEntry es c with
            | some node => resolve node (cs ++ q)
            | none => .missing) from rfl]
      rw [show resolve (.dir es) (c :: cs) =
          (match findEntry es c with
            | some node => resolve node cs
            | none => .missing) from rfl]
      cases findEntry es c with
      | some node => simp [ih node]
      | none => rfl

/-- In a list of entries with pairwise distinct names, lookup of the
name of a member entry yields exactly that member. -/
theorem findEntry_of_mem_nodup {a : String} {c : FSNode} :
    ∀ {es : List (String × FSNode)}, (a, c) ∈ es → nodupKeys es = true →
      findEntry es a = some c := by
  intro es
  induction es with
  | nil => intro h; simp at h
  | cons e rest ih =>
    intro hmem hnd
    obtain ⟨n, node⟩ := e
    rw [nodupKeys] at hnd
    rw [Bool.and_eq_true] at hnd
    rcases List.mem_cons.mp hmem with heq | htail
    · obtain ⟨rfl, rfl⟩ := Prod.mk.injEq .. ▸ heq
      simp [findEntry]
    · have hne : n ≠ a := by
        intro rfln
        have : rest.any (fun e => e.1 == n) = true := by
          rw [List.any_eq_true]
          exact ⟨(a, c), htail, by simp [rfln]⟩
        rw [this] at hnd
        simp at hnd
      rw [findEntry, if_neg hne]
      exact ih htail hnd.2

/-- Every member entry of a well-formed entry list carries a
well-formed node. -/
theorem entsWF_of_mem {a : String} {c : FSNode} :
    ∀ {es : List (String × FSNode)}, (a, c) ∈ es → entsWF es = true →
      nodeWF c = true := by
  intro es
  induction es with
  | nil => intro h; simp at h
  | cons e rest ih =>
    intro hmem hwf
    obtain ⟨n, node⟩ := e
    rw [entsWF, Bool.and_eq_true] at hwf
    rcases List.mem_cons.mp hmem with heq | htail
    · obtain ⟨rfl, rfl⟩ := Prod.mk.injEq .. ▸ heq
      exact hwf.1
    · exact ih htail hwf.2

/-- A name is among the file names of an entry list exactly when a
regular file entry of that name is in the list. -/
theorem fileNames_mem {name : String} {es : List (String × FSNode)} :
    name ∈ fileNames es ↔ ∃ c, (name, .file c) ∈ es := by
  rw [fileNames]
  constructor
  · intro h
    rw [List.mem_map] at h
    obtain ⟨⟨n, node⟩, hmem, hfst⟩ := h
    rw [List.mem_filter] at hmem
    cases node with
    | file c =>
      have hn : n = name := hfst
      exact ⟨c, hn ▸ hmem.1⟩
    | dir es2 => simp [isDirNode] at hmem
  · rintro ⟨c, hmem⟩
    rw [List.mem_map]
    refine ⟨(name, .file c), ?_, rfl⟩
    rw [List.mem_filter]
    exact ⟨hmem, by simp [isDirNode]⟩

/-- A resolved node of a well-formed file system is well formed. -/
theorem nodeWF_resolve {m : FSNode} : ∀ (q : List String) (n : FSNode),
    nodeWF n = true → resolve n q = .found m → nodeWF m = true := by
  intro q
  induction q with
  | nil =>
    intro n hwf hres
    rw [resolve] at hres
    cases hres
    exact hwf
  | cons c cs ih =>
    intro n hwf hres
    match n with
    | .file s => rw [resolve] at hres; cases hres
    | .dir es =>
      rw [show resolve (.dir es) (c :: cs) =
          (match findEntry es c with
            | some node => resolve node cs
            | none => .missing) from rfl] at hres
      cases hfind : findEntry es c with
      | none => rw [hfind] at hres; cases hres
      | some node =>
        rw [hfind] at hres
        rw [nodeWF, Bool.and_eq_true] at hwf
        have hmem : ∃ a, (a, node) ∈ es := by
          clear hres ih hwf
          induction es with
          | nil => simp [findEntry] at hfind
          | cons e rest ih2 =>
            obtain ⟨n2, node2⟩ := e
            rw [findEntry] at hfind
            by_cases hn : n2 = c
            · rw [if_pos hn] at hfind
              cases hfind
              exact ⟨n2, List.mem_cons_self ..⟩
            · rw [if_neg hn] at hfind
              obtain ⟨a, ha⟩ := ih2 hfind
              exact ⟨a, List.mem_cons_of_mem _ ha⟩
        obtain ⟨a, ha⟩ := hmem
        exact ih node (entsWF_of_mem ha hwf.2) hres

/-- A child node of a directory is smaller than the directory. -/
theorem sizeOf_child_lt {a : String} {c : FSNode} {es : List (String × FSNode)}
    (h : (a, c) ∈ es) : sizeOf c < sizeOf (FSNode.dir es) := by
  have h1 := List.sizeOf_lt_of_mem h
  have h2 : sizeOf (a, c) = 1 + sizeOf a + sizeOf c := rfl
  simp only [FSNode.dir.sizeOf_spec]
  omega

/-- The entry list of a directory is smaller than the directory. -/
theorem sizeOf_ents_lt (es : List (String × FSNode)) :
    sizeOf es < sizeOf (FSNode.dir es) := by
  simp only [FSNode.dir.sizeOf_spec]
  omega

/-- Head node and tail of an entry list are smaller than the list. -/
theorem sizeOf_entry_parts (n : String) (c : FSNode) (rest : List (String × FSNode)) :
    sizeOf c < sizeOf ((n, c) :: rest) ∧ sizeOf rest < sizeOf ((n, c) :: rest) := by
  simp only [List.cons.sizeOf_spec, Prod.mk.sizeOf_spec]
  omega

/-- The file names of an entry list starting with a regular file. -/
theorem fileNames_cons_file (n : String) (s : String) (rest : List (String × FSNode)) :
    fileNames ((n, .file s) :: rest) = n :: fileNames rest := by
  simp [fileNames, isDirNode]

/-- The file names of an entry list starting with a directory. -/
theorem fileNames_cons_dir (n : String) (es : List (String × FSNode))
    (rest : List (String × FSNode)) :
    fileNames ((n, .dir es) :: rest) = fileNames rest := by
  simp [fileNames, isDirNode]

/-- Every frame of the subdirectory walk of an entry list comes from a
walk of one of the entries. -/
theorem mem_walkEntries {p : List String} {f : Frame} :
    ∀ {es : List (String × FSNode)}, f ∈ walkEntries p es →
      ∃ a c, (a, c) ∈ es ∧ f ∈ walkNode (p ++ [a]) c := by
  intro es
  induction es with
  | nil => intro h; simp [walkEntries] at h
  | cons e rest ih =>
    obtain ⟨n, node⟩ := e
    intro h
    cases node with
    | file s =>
      rw [walkEntries] at h
      obtain ⟨a, c, hmem, hf⟩ := ih h
      exact ⟨a, c, List.mem_cons_of_mem _ hmem, hf⟩
    | dir es2 =>
      rw [walkEntries] at h
      rcases List.mem_append.mp h with h1 | h2
      · exact ⟨n, .dir es2, List.mem_cons_self .., h1⟩
      · obtain ⟨a, c, hmem, hf⟩ := ih h2
        exact ⟨a, c, List.mem_cons_of_mem _ hmem, hf⟩

/-- Conversely, a walk frame of a directory entry is a frame of the
subdirectory walk of the whole entry list. -/
theorem walkEntries_mem_intro {p : List String} {f : Frame} {a : String}
    {es2 : List (String × FSNode)} :
    ∀ {es : List (String × FSNode)}, (a, .dir es2) ∈ es →
      f ∈ walkNode (p ++ [a]) (.dir es2) → f ∈ walkEntries p es := by
  intro es
  induction es with
  | nil => intro h; simp at h
  | cons e rest ih =>
    obtain ⟨n, node⟩ := e
    intro hmem hf
    rcases List.mem_cons.mp hmem with heq | htail
    · obtain ⟨rfl, rfl⟩ := Prod.mk.injEq .. ▸ heq
      rw [walkEntries]
      exact List.mem_append_left _ hf
    · cases node with
      | file s => rw [walkEntries]; exact ih htail hf
      | dir es3 => rw [walkEntries]; exact List.mem_append_right _ (ih htail hf)

/-- Every frame of the walk of a node at path p has p as a path
prefix: the walk never leaves the tree below its starting point. -/
theorem frames_prefix : ∀ (n : FSNode) (p : List String) (f : Frame),
    f ∈ walkNode p n → p <+: f.1
  | .file _, p, f, hf => by simp [walkNode] at hf
  | .dir es, p, f, hf => by
    rw [walkNode] at hf
    rcases List.mem_cons.mp hf with rfl | h2
    · exact List.prefix_rfl
    · obtain ⟨a, c, hmem, hf2⟩ := mem_walkEntries h2
      have hlt : sizeOf c < sizeOf (FSNode.dir es) := sizeOf_child_lt hmem
      have hrec := frames_prefix c (p ++ [a]) f hf2
      exact List.IsPrefix.trans (List.prefix_append p [a]) hrec
termination_by n => sizeOf n
decreasing_by exact hlt

/-- In a well-formed tree, every walk frame names a directory that path
resolution finds again, with exactly the dirnames and filenames the
frame carries. -/
theorem walk_coherent : ∀ (n : FSNode) (p : List String) (f : Frame),
    nodeWF n = true → f ∈ walkNode p n →
    ∃ q es, f.1 = p ++ q ∧ resolve n q = .found (.dir es) ∧
      f.2.1 = dirNames es ∧ f.2.2 = fileNames es
  | .file _, p, f, _, hf => by simp [walkNode] at hf
  | .dir es, p, f, hwf, hf => by
    rw [walkNode] at hf
    rcases List.mem_cons.mp hf with rfl | h2
    · exact ⟨[], es, by simp, rfl, rfl, rfl⟩
    · obtain ⟨a, c, hmem, hf2⟩ := mem_walkEntries h2
      have hlt : sizeOf c < sizeOf (FSNode.dir es) := sizeOf_child_lt hmem
      rw [nodeWF, Bool.and_eq_true] at hwf
      have hcwf : nodeWF c = true := entsWF_of_mem hmem hwf.2
      obtain ⟨q, es2, h1, h2r, h3, h4⟩ := walk_coherent c (p ++ [a]) f hcwf hf2
      refine ⟨a :: q, es2, by simp [h1], ?_, h3, h4⟩
      rw [show resolve (.dir es) (a :: q) = (match findEntry es a with
          | some node => resolve node q | none => .missing) from rfl]
      rw [findEntry_of_mem_nodup hmem hwf.1]
      exact h2r
termination_by n => sizeOf n
decreasing_by exact hlt

mutual

/-- Some file named name exists in the tree below a node exactly when
some walk frame of the node lists the name among its filenames. -/
theorem contains_iff_hit : ∀ (n : FSNode) (p : List String) (name : String),
    containsFileNamed n name = true ↔ ∃ f ∈ walkNode p n, name ∈ f.2.2
  | .file s, p, name => by
    simp [containsFileNamed, walkNode]
  | .dir es, p, name => by
    rw [containsFileNamed, walkNode]
    constructor
    · intro h
      rcases (entsContain_iff es p name).mp h with h1 | ⟨f, hf, hn⟩
      · exact ⟨(p, dirNames es, fileNames es), List.mem_cons_self .., h1⟩
      · exact ⟨f, List.mem_cons_of_mem _ hf, hn⟩
    · rintro ⟨f, hf, hn⟩
      apply (entsContain_iff es p name).mpr
      rcases List.mem_cons.mp hf with rfl | h2
      · exact Or.inl hn
      · exact Or.inr ⟨f, h2, hn⟩

/-- An entry list has a file of the name directly or in one of its
directories exactly when the name appears directly in its filenames or
in some frame of its subdirectory walk. -/
theorem entsContain_iff : ∀ (es : List (String × FSNode)) (p : List String) (name : String),
    entsContain es name = true ↔
      name ∈ fileNames es ∨ ∃ f ∈ walkEntries p es, name ∈ f.2.2
  | [], p, name => by simp [entsContain, fileNames, walkEntries]
  | (n, .file s) :: rest, p, name => by
    rw [entsContain, walkEntries, fileNames_cons_file]
    rw [Bool.or_eq_true, beq_iff_eq]
    rw [entsContain_iff rest p name]
    constructor
    · rintro (rfl | h1 | h2)
      · exact Or.inl (List.mem_cons_self ..)
      · exact Or.inl (List.mem_cons_of_mem _ h1)
      · exact Or.inr h2
    · rintro (h1 | h2)
      · rcases List.mem_cons.mp h1 with rfl | h3
        · exact Or.inl rfl
        · exact Or.inr (Or.inl h3)
      · exact Or.inr (Or.inr h2)
  | (n, .dir es2) :: rest, p, name => by
    rw [entsContain, walkEntries, fileNames_cons_dir]
    rw [Bool.or_eq_true]
    rw [contains_iff_hit (.dir es2) (p ++ [n]) name]
    rw [entsContain_iff rest p name]
    constructor
    · rintro (⟨f, hf, hn⟩ | h1 | ⟨f, hf, hn⟩)
      · exact Or.inr ⟨f, List.mem_append_left _ hf, hn⟩
      · exact Or.inl h1
      · exact Or.inr ⟨f, List.mem_append_right _ hf, hn⟩
    · rintro (h1 | ⟨f, hf, hn⟩)
      · exact Or.inr (Or.inl h1)
      · rcases List.mem_append.mp hf with h2 | h2
        · exact Or.inl ⟨f, h2, hn⟩
        · exact Or.inr (Or.inr ⟨f, h2, hn⟩)

end

/-! Case lemmas describing each plugin method by the resolution outcome
of its full path. -/

/-- read_file_by_path on a path resolving to a regular file. -/
theorem read_by_path_found_file (st : RepoFilePlugin) (fs : FSNode) (p : PyPath)
    (c : String)
    (h : resolve fs (osPathJoin st.root_dir p).components = .found (.file c)) :
    st.read_file_by_path fs p = ⟨st, [], .ok (universalNewlines c)⟩ := by
  rw [RepoFilePlugin.read_file_by_path]
  simp only [osOpenRead, h]

/-- read_file_by_path on a path resolving to a directory. -/
theorem read_by_path_found_dir (st : RepoFilePlugin) (fs : FSNode) (p : PyPath)
    (es : List (String × FSNode))
    (h : resolve fs (osPathJoin st.root_dir p).components = .found (.dir es)) :
    st.read_file_by_path fs p = ⟨st, [], .error (.isADirectory
      ("Is a directory: " ++ pathStr ⟨true, (osPathJoin st.root_dir p).components⟩))⟩ := by
  rw [RepoFilePlugin.read_file_by_path]
  simp only [osOpenRead, h]

/-- read_file_by_path on an absent path. -/
theorem read_by_path_missing (st : RepoFilePlugin) (fs : FSNode) (p : PyPath)
    (h : resolve fs (osPathJoin st.root_dir p).components = .missing) :
    st.read_file_by_path fs p = ⟨st, [], .error (.fileNotFound
      ("File " ++ pathStr (osPathJoin st.root_dir p) ++ " not found in repository."))⟩ := by
  rw [RepoFilePlugin.read_file_by_path]
  simp only [osOpenRead, h]

/-- read_file_by_path on a path through a regular file. -/
theorem read_by_path_notDir (st : RepoFilePlugin) (fs : FSNode) (p : PyPath)
    (h : resolve fs (osPathJoin st.root_dir p).components = .notDir) :
    st.read_file_by_path fs p = ⟨st, [], .error (.notADirectory
      ("Not a directory: " ++ pathStr ⟨true, (osPathJoin st.root_dir p).components⟩))⟩ := by
  rw [RepoFilePlugin.read_file_by_path]
  simp only [osOpenRead, h]

/-- list_directory on a path resolving to a directory. -/
theorem list_dir_found_dir (st : RepoFilePlugin) (fs : FSNode) (p : PyPath)
    (es : List (String × FSNode))
    (h : resolve fs (osPathJoin st.root_dir p).components = .found (.dir es)) :
    st.list_directory fs p = ⟨st, [], .ok (String.intercalate "\n" (es.map Prod.fst))⟩ := by
  rw [RepoFilePlugin.list_directory]
  simp only [osListdir, h]

/-- list_directory on an absent path. -/
theorem list_dir_missing (st : RepoFilePlugin) (fs : FSNode) (p : PyPath)
    (h : resolve fs (osPathJoin st.root_dir p).components = .missing) :
    st.list_directory fs p = ⟨st, [], .error (.fileNotFound
      ("Directory " ++ pathStr (osPathJoin st.root_dir p) ++ " not found in repository."))⟩ := by
  rw [RepoFilePlugin.list_directory]
  simp only [osListdir, h]

/-- list_directory on a path resolving to a regular file. -/
theorem list_dir_found_file (st : RepoFilePlugin) (fs : FSNode) (p : PyPath)
    (c : String)
    (h : resolve fs (osPathJoin st.root_dir p).components = .found (.file c)) :
    st.list_directory fs p = ⟨st, [], .error (.notADirectory
      ("Not a directory: " ++ pathStr ⟨true, (osPathJoin st.root_dir p).components⟩))⟩ := by
  rw [RepoFilePlugin.list_directory]
  simp only [osListdir, h]

/-- The search loop of read_file_by_name, described through the first
frame whose filenames contain the name. -/
theorem searchFrames_eq (fs : FSNode) (name : String) :
    ∀ (frames : List Frame),
      searchFrames fs name frames =
        match frames.find? (fun fr => decide (name ∈ fr.2.2)) with
        | some f => ([foundMsg name f.1], osOpenRead fs (f.1 ++ [name]))
        | none => ([], .error (.fileNotFound
            ("File " ++ name ++ " not found in repository.")))
  | [] => by simp [searchFrames, List.find?]
  | (dirpath, dns, files) :: rest => by
    rw [searchFrames]
    by_cases h : name ∈ files
    · rw [if_pos h]
      rw [List.find?_cons_of_pos _ (by simpa using h)]
    · rw [if_neg h]
      rw [List.find?_cons_of_neg _ (by simpa using h)]
      exact searchFrames_eq fs name rest

/-- When find? succeeds, filter starts with the found element. -/
theorem filter_eq_cons_of_find? {α : Type} {l : List α} {p : α → Bool} {m : α}
    (h : l.find? p = some m) : ∃ t, l.filter p = m :: t := by
  induction l with
  | nil => simp [List.find?] at h
  | cons a rest ih =>
    by_cases hp : p a
    · rw [List.find?_cons_of_pos _ hp] at h
      cases h
      exact ⟨rest.filter p, by rw [List.filter_cons_of_pos hp]⟩
    · rw [List.find?_cons_of_neg _ (by simpa using hp)] at h
      obtain ⟨t, ht⟩ := ih h
      exact ⟨t, by rw [List.filter_cons_of_neg (by simpa using hp), ht]⟩

/-- In a well-formed tree, a walk frame whose filenames contain the
name guarantees a regular file at the frame path extended by the name,
and its content. -/
theorem found_frame_opens (fs : FSNode) (root : List String) (node : FSNode)
    (name : String) (f : Frame)
    (hwf : nodeWF fs = true) (hres : resolve fs root = .found node)
    (hf : f ∈ walkNode root node) (hn : name ∈ f.2.2) :
    ∃ c, resolve fs (f.1 ++ [name]) = .found (.file c) := by
  have hnwf : nodeWF node = true := nodeWF_resolve root fs hwf hres
  obtain ⟨q, es, h1, h2, _, h4⟩ := walk_coherent node root f hnwf hf
  have hes : nodeWF (.dir es) = true := nodeWF_resolve q node hnwf h2
  rw [nodeWF, Bool.and_eq_true] at hes
  obtain ⟨c, hc⟩ := fileNames_mem.mp (h4 ▸ hn)
  have hfind : findEntry es name = some (.file c) := findEntry_of_mem_nodup hc hes.1
  have hroot_q : resolve fs (root ++ q) = .found (.dir es) := by
    rw [resolve_append root q fs, hres]
    exact h2
  have step1 : resolve fs ((root ++ q) ++ [name]) = resolve (.dir es) [name] := by
    rw [resolve_append (root ++ q) [name] fs, hroot_q]
  have step2 : resolve (.dir es) [name] = .found (.file c) := by
    rw [show resolve (.dir es) [name] = (match findEntry es name with
        | some n2 => resolve n2 [] | none => .missing) from rfl, hfind]
    rfl
  exact ⟨c, by rw [h1, step1, step2]⟩

/-! The claims. -/

/-- C1 counterexample: the file crlf.txt stores the bytes a CR LF b,
but read_file_by_path returns a LF b — open in default text mode
translates the newline sequence, so the returned string is not the
exact stored content. -/
theorem C1_counterexample :
    resolve sampleFS ["repo", "crlf.txt"] = .found (.file "a\r\nb") ∧
    (samplePlugin.read_file_by_path sampleFS ⟨false, ["crlf.txt"]⟩).result
      = .ok "a\nb" ∧
    (Except.ok "a\nb" : Except PyError String) ≠ .ok "a\r\nb" := by
  refine ⟨rfl, rfl, ?_⟩
  intro h
  injection h with h2
  exact absurd h2 (by decide)

/-- C1 (amended): for a path resolving to a regular file under the
joined path, read_file_by_path returns the stored content subjected to
the universal newline translation of text mode; when the content holds
no carriage return this is exactly the stored content. -/
theorem C1_read_by_path_content (st : RepoFilePlugin) (fs : FSNode) (p : PyPath)
    (c : String)
    (h : resolve fs (osPathJoin st.root_dir p).components = .found (.file c)) :
    (st.read_file_by_path fs p).result = .ok (universalNewlines c) ∧
      ('\r' ∉ c.data → (st.read_file_by_path fs p).result = .ok c) := by
  rw [read_by_path_found_file st fs p c h]
  exact ⟨rfl, fun hnc => by rw [universalNewlines_no_cr c hnc]⟩

/-- C1 witness: reading README.md, whose content has no carriage
return, returns exactly its content. -/
theorem C1_witness :
    (samplePlugin.read_file_by_path sampleFS ⟨false, ["README.md"]⟩).result
      = .ok "hello" :=
  (C1_read_by_path_content samplePlugin sampleFS ⟨false, ["README.md"]⟩ "hello"
    rfl).2 (by decide)

/-- C2 counterexample: with the plugin rooted at /repo, the absolute
argument /etc/passwd makes read_file_by_path access a file that does
not lie under the root, and return its content — os.path.join discards
the root when the argument is absolute, and no containment check is
made. -/
theorem C2_counterexample :
    osPathJoin samplePlugin.root_dir ⟨true, ["etc", "passwd"]⟩
      = ⟨true, ["etc", "passwd"]⟩ ∧
    ¬ (samplePlugin.root_dir.components <+: ["etc", "passwd"]) ∧
    (samplePlugin.read_file_by_path sampleFS ⟨true, ["etc", "passwd"]⟩).result
      = .ok "secret" := by
  refine ⟨rfl, ?_, rfl⟩
  rintro ⟨t, ht⟩
  simp [samplePlugin] at ht

/-- C2 (amended): read_file_by_name searches only below the root —
every frame of its walk extends the root path — and for
read_file_by_path and list_directory the joined path extends the root
whenever the argument path is relative; an absolute argument replaces
the root entirely and is not checked. -/
theorem C2_scoping (root : PyPath) (p : PyPath) (hrel : p.absolute = false)
    (fs : FSNode) (f : Frame) (hf : f ∈ osWalk fs root.components) :
    root.components <+: (osPathJoin root p).components ∧
      root.components <+: f.1 := by
  constructor
  · rw [osPathJoin, if_neg (by simp [hrel])]
    exact List.prefix_append ..
  · rw [osWalk] at hf
    cases hres : resolve fs root.components with
    | found node => rw [hres] at hf; exact frames_prefix node root.components f hf
    | missing => rw [hres] at hf; simp at hf
    | notDir => rw [hres] at hf; simp at hf

/-- C2 witness: a relative argument stays under /repo, and the frame of
the subdirectory sub of the walk lies under /repo. -/
theorem C2_witness :
    samplePlugin.root_dir.components <+:
      (osPathJoin samplePlugin.root_dir ⟨false, ["README.md"]⟩).components ∧
    samplePlugin.root_dir.components <+: ["repo", "sub"] :=
  C2_scoping samplePlugin.root_dir ⟨false, ["README.md"]⟩ rfl sampleFS
    (["repo", "sub"], [], ["notes.txt"]) (by decide)

/-- C4: for a path resolving to a directory under the joined path,
list_directory returns exactly the immediate entry names of that
directory — no recursion, no dot or dot-dot entries — joined by
newline characters. -/
theorem C4_list_directory (st : RepoFilePlugin) (fs : FSNode) (p : PyPath)
    (es : List (String × FSNode))
    (h : resolve fs (osPathJoin st.root_dir p).components = .found (.dir es)) :
    (st.list_directory fs p).result
      = .ok (String.intercalate "\n" (es.map Prod.fst)) := by
  rw [list_dir_found_dir st fs p es h]

/-- C4 witness: listing the subdirectory returns its single entry. -/
theorem C4_witness :
    (samplePlugin.list_directory sampleFS ⟨false, ["sub"]⟩).result
      = .ok "notes.txt" :=
  C4_list_directory samplePlugin sampleFS ⟨false, ["sub"]⟩
    [("notes.txt", .file "inner")] rfl

/-- C6: the root directory is an absolute path computed at
construction — init always records an absolute path — and each of the
three operations returns the plugin object unchanged. -/
theorem C6_root_fixed :
    (∀ (cwd : List String) (d : PyPath),
      (RepoFilePlugin.init cwd d).root_dir.absolute = true) ∧
    (∀ (st : RepoFilePlugin) (fs : FSNode) (p : PyPath),
      (st.read_file_by_path fs p).self = st) ∧
    (∀ (st : RepoFilePlugin) (fs : FSNode) (n : String),
      (st.read_file_by_name fs n).self = st) ∧
    (∀ (st : RepoFilePlugin) (fs : FSNode) (p : PyPath),
      (st.list_directory fs p).self = st) := by
  refine ⟨fun cwd d => rfl, fun st fs p => ?_, fun st fs n => rfl, fun st fs p => ?_⟩
  · rw [RepoFilePlugin.read_file_by_path]
    cases osOpenRead fs (osPathJoin st.root_dir p).components with
    | ok c => rfl
    | error e => cases e <;> rfl
  · rw [RepoFilePlugin.list_directory]
    cases osListdir fs (osPathJoin st.root_dir p).components with
    | ok fsx => rfl
    | error e => cases e <;> rfl

/-- C3 counterexample: applied to the path sub, which names an existing
directory, read_file_by_path raises IsADirectoryError — not a
not-found error — although no regular file exists at the joined path,
so a not-found error is not raised exactly when the target file is
absent. -/
theorem C3_counterexample :
    isFileAt sampleFS ["repo", "sub"] = false ∧
    (samplePlugin.read_file_by_path sampleFS ⟨false, ["sub"]⟩).result
      = .error (.isADirectory "Is a directory: /repo/sub") := ⟨rfl, rfl⟩

/-- C3 (amended): in a well-formed file system, read_file_by_path
raises its descriptive not-found error exactly when nothing at all
exists at the joined path, and read_file_by_name raises its descriptive
not-found error exactly when no file of the name exists anywhere under
the root; a path naming an existing directory raises IsADirectoryError
instead of a not-found error. -/
theorem C3_not_found_iff (st : RepoFilePlugin) (fs : FSNode) (p : PyPath)
    (name : String) (hwf : nodeWF fs = true) :
    ((st.read_file_by_path fs p).result = .error (.fileNotFound
        ("File " ++ pathStr (osPathJoin st.root_dir p) ++ " not found in repository."))
      ↔ resolve fs (osPathJoin st.root_dir p).components = .missing) ∧
    ((st.read_file_by_name fs name).result = .error (.fileNotFound
        ("File " ++ name ++ " not found in repository."))
      ↔ existsFileUnder fs st.root_dir.components name = false) := by
  constructor
  · constructor
    · intro h
      cases hres : resolve fs (osPathJoin st.root_dir p).components with
      | found node =>
        cases node with
        | file c =>
          rw [read_by_path_found_file st fs p c hres] at h
          exact Except.noConfusion h
        | dir es =>
          rw [read_by_path_found_dir st fs p es hres] at h
          injection h with h2
          exact PyError.noConfusion h2
      | missing => rfl
      | notDir =>
        rw [read_by_path_notDir st fs p hres] at h
        injection h with h2
        exact PyError.noConfusion h2
    · intro h
      rw [read_by_path_missing st fs p h]
  · have hsf := searchFrames_eq fs name (osWalk fs st.root_dir.components)
    cases hfind : (osWalk fs st.root_dir.components).find?
        (fun fr => decide (name ∈ fr.2.2)) with
    | some f =>
      rw [hfind] at hsf
      have hmem := List.mem_of_find?_eq_some hfind
      have hp : name ∈ f.2.2 := by simpa using List.find?_some hfind
      cases hres : resolve fs st.root_dir.components with
      | found node =>
        have hwalk : osWalk fs st.root_dir.components
            = walkNode st.root_dir.components node := by
          rw [osWalk, hres]
        rw [hwalk] at hmem
        obtain ⟨c, hc⟩ :=
          found_frame_opens fs st.root_dir.components node name f hwf hres hmem hp
        have hok : (st.read_file_by_name fs name).result
            = .ok (universalNewlines c) := by
          rw [show (st.read_file_by_name fs name).result
              = (searchFrames fs name (osWalk fs st.root_dir.components)).2 from rfl,
            hsf]
          simp [osOpenRead, hc]
        have hex : existsFileUnder fs st.root_dir.components name = true := by
          rw [existsFileUnder, hres]
          exact (contains_iff_hit node st.root_dir.components name).mpr ⟨f, hmem, hp⟩
        constructor
        · intro h
          rw [hok] at h
          exact Except.noConfusion h
        · intro h
          rw [hex] at h
          exact Bool.noConfusion h
      | missing =>
        rw [osWalk, hres] at hfind
        simp [List.find?] at hfind
      | notDir =>
        rw [osWalk, hres] at hfind
        simp [List.find?] at hfind
    | none =>
      rw [hfind] at hsf
      have hfnf : (st.read_file_by_name fs name).result = .error (.fileNotFound
          ("File " ++ name ++ " not found in repository.")) := by
        rw [show (st.read_file_by_name fs name).result
            = (searchFrames fs name (osWalk fs st.root_dir.components)).2 from rfl,
          hsf]
      have hnone := List.find?_eq_none.mp hfind
      have hex : existsFileUnder fs st.root_dir.components name = false := by
        rw [existsFileUnder]
        cases hres : resolve fs st.root_dir.components with
        | found node =>
          show containsFileNamed node name = false
          by_contra hcon
          rw [Bool.not_eq_false] at hcon
          obtain ⟨f, hf, hn⟩ :=
            (contains_iff_hit node st.root_dir.components name).mp hcon
          have hfw : f ∈ osWalk fs st.root_dir.components := by
            rw [osWalk, hres]; exact hf
          exact absurd (by simpa using hn) (by simpa using hnone f hfw)
        | missing => rfl
        | notDir => rfl
      rw [hfnf, hex]
      simp

/-- C3 witness: an absent relative path and an absent file name each
raise the descriptive not-found error. -/
theorem C3_witness :
    (samplePlugin.read_file_by_path sampleFS ⟨false, ["nope"]⟩).result
      = .error (.fileNotFound "File /repo/nope not found in repository.") ∧
    (samplePlugin.read_file_by_name sampleFS "nope.txt").result
      = .error (.fileNotFound "File nope.txt not found in repository.") :=
  ⟨(C3_not_found_iff samplePlugin sampleFS ⟨false, ["nope"]⟩ "nope.txt"
      (by decide)).1.mpr rfl,
   (C3_not_found_iff samplePlugin sampleFS ⟨false, ["nope"]⟩ "nope.txt"
      (by decide)).2.mpr rfl⟩

/-- C5: in a well-formed file system, when the top-down walk under the
root has a first frame whose filenames contain the name,
read_file_by_name returns the text-mode content of the file of that
name in exactly that directory — with several files of the same name,
the first one in walk order. -/
theorem C5_first_hit (st : RepoFilePlugin) (fs : FSNode) (name : String)
    (hwf : nodeWF fs = true) (f : Frame)
    (hfind : (osWalk fs st.root_dir.components).find?
        (fun fr => decide (name ∈ fr.2.2)) = some f) :
    ∃ c, resolve fs (f.1 ++ [name]) = .found (.file c) ∧
      (st.read_file_by_name fs name).result = .ok (universalNewlines c) := by
  have hsf := searchFrames_eq fs name (osWalk fs st.root_dir.components)
  rw [hfind] at hsf
  have hmem := List.mem_of_find?_eq_some hfind
  have hp : name ∈ f.2.2 := by simpa using List.find?_some hfind
  cases hres : resolve fs st.root_dir.components with
  | found node =>
    have hwalk : osWalk fs st.root_dir.components
        = walkNode st.root_dir.components node := by
      rw [osWalk, hres]
    rw [hwalk] at hmem
    obtain ⟨c, hc⟩ :=
      found_frame_opens fs st.root_dir.components node name f hwf hres hmem hp
    refine ⟨c, hc, ?_⟩
    rw [show (st.read_file_by_name fs name).result
        = (searchFrames fs name (osWalk fs st.root_dir.components)).2 from rfl, hsf]
    simp [osOpenRead, hc]
  | missing =>
    rw [osWalk, hres] at hfind
    simp [List.find?] at hfind
  | notDir =>
    rw [osWalk, hres] at hfind
    simp [List.find?] at hfind

/-- C5 witness: with dup.txt both in a and in b, and a before b in
entry order, the first frame of the walk containing dup.txt is the one
of a, and read_file_by_name returns the content stored in a. -/
theorem C5_witness :
    ∃ c, resolve dupFS (["repo", "a"] ++ ["dup.txt"]) = .found (.file c) ∧
      (dupPlugin.read_file_by_name dupFS "dup.txt").result
        = .ok (universalNewlines c) :=
  C5_first_hit dupPlugin dupFS "dup.txt" (by decide)
    (["repo", "a"], [], ["dup.txt"]) (by decide)

/-- C7: an error of the underlying open or listdir call that is not a
FileNotFoundError — a path naming a directory, a path through a
regular file — propagates to the caller unchanged, neither caught nor
wrapped. -/
theorem C7_propagation (st : RepoFilePlugin) (fs : FSNode) (p q : PyPath)
    (e1 e2 : PyError)
    (h1 : osOpenRead fs (osPathJoin st.root_dir p).components = .error e1)
    (h2 : ∀ m, e1 ≠ .fileNotFound m)
    (h3 : osListdir fs (osPathJoin st.root_dir q).components = .error e2)
    (h4 : ∀ m, e2 ≠ .fileNotFound m) :
    (st.read_file_by_path fs p).result = .error e1 ∧
      (st.list_directory fs q).result = .error e2 := by
  constructor
  · simp only [RepoFilePlugin.read_file_by_path]
    rw [h1]
    cases e1 with
    | fileNotFound m => exact absurd rfl (h2 m)
    | isADirectory m => rfl
    | notADirectory m => rfl
    | indexError m => rfl
  · simp only [RepoFilePlugin.list_directory]
    rw [h3]
    cases e2 with
    | fileNotFound m => exact absurd rfl (h4 m)
    | isADirectory m => rfl
    | notADirectory m => rfl
    | indexError m => rfl

/-- C7 witness: read_file_by_path on a directory propagates
IsADirectoryError, list_directory on a regular file propagates
NotADirectoryError, both with their original messages. -/
theorem C7_witness :
    (samplePlugin.read_file_by_path sampleFS ⟨false, ["sub"]⟩).result
      = .error (.isADirectory "Is a directory: /repo/sub") ∧
    (samplePlugin.list_directory sampleFS ⟨false, ["README.md"]⟩).result
      = .error (.notADirectory "Not a directory: /repo/README.md") :=
  C7_propagation samplePlugin sampleFS ⟨false, ["sub"]⟩ ⟨false, ["README.md"]⟩
    (.isADirectory "Is a directory: /repo/sub")
    (.notADirectory "Not a directory: /repo/README.md")
    rfl (fun _ h => PyError.noConfusion h) rfl (fun _ h => PyError.noConfusion h)

/-- C8: main prints one banner line naming each responding agent, then
the label line, then the final text, which is the content of the first
message of the chat history authored by the content creation agent —
the history being given newest first, this is its most recent
message. -/
theorem C8_final_content (responses chat : List ChatMessage) (agentName : String)
    (m : ChatMessage) (h : chat.find? (fun x => x.name == agentName) = some m) :
    mainPrints responses chat agentName =
      (responses.map (fun r => respondedLine r.name)
        ++ ["Final content:", m.content], .ok ()) := by
  obtain ⟨t, ht⟩ := filter_eq_cons_of_find? h
  simp only [mainPrints]
  rw [ht]

/-- C8 witness: with two responses and a newest-first history holding
two messages of the content creation agent, main prints the two banner
lines, the label, and the newest content of that agent. -/
theorem C8_witness :
    mainPrints
      [⟨"ContentCreationAgent", "draft"⟩, ⟨"UserAgent", "looks good"⟩]
      [⟨"UserAgent", "looks good"⟩, ⟨"ContentCreationAgent", "final"⟩,
        ⟨"ContentCreationAgent", "old draft"⟩]
      "ContentCreationAgent" =
      (["==== ContentCreationAgent just responded ====",
        "==== UserAgent just responded ====",
        "Final content:", "final"], .ok ()) :=
  C8_final_content
    [⟨"ContentCreationAgent", "draft"⟩, ⟨"UserAgent", "looks good"⟩]
    [⟨"UserAgent", "looks good"⟩, ⟨"ContentCreationAgent", "final"⟩,
      ⟨"ContentCreationAgent", "old draft"⟩]
    "ContentCreationAgent" ⟨"ContentCreationAgent", "final"⟩ rfl

/-- C9: when no message of the chat history is authored by the content
creation agent, main prints the banner lines and the label but no final
content, and raises IndexError at the unguarded index-zero access. -/
theorem C9_index_error (responses chat : List ChatMessage) (agentName : String)
    (h : ∀ m ∈ chat, (m.name == agentName) = false) :
    mainPrints responses chat agentName =
      (responses.map (fun r => respondedLine r.name) ++ ["Final content:"],
        .error (.indexError "list index out of range")) := by
  have hfil : chat.filter (fun m => m.name == agentName) = [] := by
    rw [List.filter_eq_nil_iff]
    intro a ha
    simp [h a ha]
  simp only [mainPrints]
  rw [hfil]

/-- C9 witness: a history with only messages of other agents makes main
raise IndexError after printing the label line. -/
theorem C9_witness :
    mainPrints [⟨"UserAgent", "hi"⟩] [⟨"UserAgent", "hi"⟩] "ContentCreationAgent" =
      (["==== UserAgent just responded ====", "Final content:"],
        .error (.indexError "list index out of range")) :=
  C9_index_error [⟨"UserAgent", "hi"⟩] [⟨"UserAgent", "hi"⟩]
    "ContentCreationAgent" (by decide)

/-- C10: a successful read_file_by_name prints exactly one line, the
found line naming the file and the directory it was found in, while
read_file_by_path and list_directory never print anything. -/
theorem C10_output (st : RepoFilePlugin) (fs : FSNode) (name : String)
    (p q : PyPath) (c : String)
    (h : (st.read_file_by_name fs name).result = .ok c) :
    (∃ d, (st.read_file_by_name fs name).output =
        ["Found file " ++ name ++ " in " ++ pathStr ⟨true, d⟩ ++ "."]) ∧
    (st.read_file_by_path fs p).output = [] ∧
    (st.list_directory fs q).output = [] := by
  refine ⟨?_, ?_, ?_⟩
  · have hsf := searchFrames_eq fs name (osWalk fs st.root_dir.components)
    cases hfind : (osWalk fs st.root_dir.components).find?
        (fun fr => decide (name ∈ fr.2.2)) with
    | some f =>
      rw [hfind] at hsf
      refine ⟨f.1, ?_⟩
      rw [show (st.read_file_by_name fs name).output
          = (searchFrames fs name (osWalk fs st.root_dir.components)).1 from rfl, hsf]
      rfl
    | none =>
      rw [hfind] at hsf
      rw [show (st.read_file_by_name fs name).result
          = (searchFrames fs name (osWalk fs st.root_dir.components)).2 from rfl,
        hsf] at h
      exact Except.noConfusion h
  · rw [RepoFilePlugin.read_file_by_path]
    cases osOpenRead fs (osPathJoin st.root_dir p).components with
    | ok c2 => rfl
    | error e => cases e <;> rfl
  · rw [RepoFilePlugin.list_directory]
    cases osListdir fs (osPathJoin st.root_dir q).components with
    | ok fsx => rfl
    | error e => cases e <;> rfl

/-- C10 witness: finding notes.txt prints the found line naming file
and directory; the two other operations print nothing. -/
theorem C10_witness :
    (∃ d, (samplePlugin.read_file_by_name sampleFS "notes.txt").output =
        ["Found file " ++ "notes.txt" ++ " in " ++ pathStr ⟨true, d⟩ ++ "."]) ∧
    (samplePlugin.read_file_by_path sampleFS ⟨false, ["README.md"]⟩).output = [] ∧
    (samplePlugin.list_directory sampleFS ⟨false, ["sub"]⟩).output = [] :=
  C10_output samplePlugin sampleFS "notes.txt" ⟨false, ["README.md"]⟩
    ⟨false, ["sub"]⟩ "inner" rfl

end DocGen
